import Mathlib

/-!
Verification development for the apartment-listing scraper
(`src/scraper.py`).  The Python source is shallowly embedded: pure string
manipulation becomes Lean functions on `List Char` / `String`, the
browser is an opaque page-fetching function, CSV files are lists of rows,
and the single worker loop is explicit recursion.  All definitions are
translated from the source; the relevant source lines are cited in the
doc comments.  Characters are treated as ASCII (the Python originals are
Unicode-aware, but every claim and every input considered here is ASCII).
-/

/-- Python whitespace characters recognised by `str.strip()` (ASCII part). -/
def isPyWs (c : Char) : Bool :=
  c = ' ' || c = '\t' || c = '\n' || c = '\x0d' || c = '\x0b' || c = '\x0c'

/-- Model of Python `str.strip()` on a character list (ASCII whitespace). -/
def stripList (l : List Char) : List Char :=
  ((l.dropWhile isPyWs).reverse.dropWhile isPyWs).reverse

/-- Model of Python `str.lower()` (ASCII letters). -/
def lowerList (l : List Char) : List Char :=
  l.map Char.toLower

/-- Split a character list at the first occurrence of `c`; `none` when `c`
is absent.  Models `str.find` + slicing / `str.split(c, 1)`. -/
def splitOnceAt (c : Char) : List Char → Option (List Char × List Char)
  | [] => none
  | x :: xs =>
    if x = c then some ([], xs)
    else
      match splitOnceAt c xs with
      | some (a, b) => some (x :: a, b)
      | none => none

/-- Model of Python `str.split(c)` (always at least one piece). -/
def splitOnChar (c : Char) : List Char → List (List Char)
  | [] => [[]]
  | x :: xs =>
    let r := splitOnChar c xs
    if x = c then [] :: r
    else
      match r with
      | h :: t => (x :: h) :: t
      | [] => [[x]]

/-- Model of Python substring containment `needle in hay`. -/
def strContains (needle : List Char) : List Char → Bool
  | [] => needle.isEmpty
  | c :: t => needle.isPrefixOf (c :: t) || strContains needle t

/-- Python `sub in s` on strings. -/
def pyIn (sub s : String) : Bool := strContains sub.toList s.toList

/-- Python `s.lower()` on strings. -/
def pyLower (s : String) : String := (lowerList s.toList).asString

/-- Python `s.strip()` on strings. -/
def pyStrip (s : String) : String := (stripList s.toList).asString

/-! ### Model of the `urllib.parse` functions used by `normalize_url`

`urlsplit`, `urlparse`, `urljoin`, `urlunsplit` and `urlunparse` are
translated from CPython `Lib/urllib/parse.py`.  Restrictions of the
model: hosts are ASCII (the `_checknetloc` NFKC check never fires) and
bracketed IPv6 hosts are not validated beyond the matching-bracket check
(no input considered here contains brackets). -/

/-- Characters allowed in a URL scheme (`scheme_chars` in CPython). -/
def schemeChar (c : Char) : Bool :=
  c.isAlpha || c.isDigit || c = '+' || c = '-' || c = '.'

/-- CPython removes tab, CR and LF anywhere in the URL before parsing
(`_UNSAFE_URL_BYTES_TO_REMOVE`). -/
def removeTabsCrLf (l : List Char) : List Char :=
  l.filter (fun c => !(c = '\t' || c = '\n' || c = '\x0d'))

/-- A leading `scheme:` prefix is recognised only when the first character
is an ASCII letter and all characters before the colon are scheme
characters. -/
def validScheme (before : List Char) : Bool :=
  (match before with
   | [] => false
   | c :: _ => c.isAlpha) && before.all schemeChar

/-- Result of `urlsplit`. -/
structure SplitRes where
  scheme : List Char
  netloc : List Char
  path : List Char
  query : List Char
  fragment : List Char
deriving DecidableEq

/-- Model of `urllib.parse.urlsplit(url, defScheme)`.  `Except` carries the
`ValueError` raised for mismatched IPv6 brackets. -/
def pySplitUrl (defScheme : List Char) (url0 : List Char) : Except Unit SplitRes :=
  let url := removeTabsCrLf url0
  let sp :=
    match splitOnceAt ':' url with
    | some (before, after) =>
      if validScheme before then (lowerList before, after) else (defScheme, url)
    | none => (defScheme, url)
  let scheme := sp.1
  let rest := sp.2
  let noDelim : Char → Bool := fun c => !(c = '/' || c = '?' || c = '#')
  let np :=
    if rest.take 2 = ['/', '/'] then
      ((rest.drop 2).takeWhile noDelim, (rest.drop 2).dropWhile noDelim)
    else ([], rest)
  let netloc := np.1
  let rest2 := np.2
  if (netloc.contains '[') ≠ (netloc.contains ']') then .error ()
  else
    let fp :=
      match splitOnceAt '#' rest2 with
      | some (a, b) => (a, b)
      | none => (rest2, [])
    let qp :=
      match splitOnceAt '?' fp.1 with
      | some (a, b) => (a, b)
      | none => (fp.1, [])
    .ok ⟨scheme, netloc, qp.1, qp.2, fp.2⟩

/-- Result of `urlparse` (adds the `params` component). -/
structure ParseRes where
  scheme : List Char
  netloc : List Char
  path : List Char
  params : List Char
  query : List Char
  fragment : List Char
deriving DecidableEq

/-- `uses_params` from CPython `urllib.parse`. -/
def usesParams : List (List Char) :=
  (["", "ftp", "hdl", "prospero", "http", "imap", "https", "shttp", "rtsp",
    "rtspu", "sip", "sips", "mms", "sftp", "tel"] : List String).map String.toList

/-- `uses_relative` from CPython `urllib.parse`. -/
def usesRelative : List (List Char) :=
  (["", "ftp", "http", "gopher", "nntp", "imap", "wais", "file", "https",
    "shttp", "mms", "prospero", "rtsp", "rtspu", "sftp", "svn", "svn+ssh",
    "ws", "wss"] : List String).map String.toList

/-- `uses_netloc` from CPython `urllib.parse`. -/
def usesNetloc : List (List Char) :=
  (["", "ftp", "http", "gopher", "nntp", "telnet", "imap", "wais", "file",
    "mms", "https", "shttp", "snews", "prospero", "rtsp", "rtspu", "rsync",
    "svn", "svn+ssh", "sftp", "nfs", "git", "git+ssh", "ws", "wss",
    "itms-services"] : List String).map String.toList

/-- Model of CPython `_splitparams`: split path params at the first `;`
occurring at or after the last `/`. -/
def splitParamsPath (path : List Char) : List Char × List Char :=
  if path.contains '/' then
    let after := (path.reverse.takeWhile (fun c => c ≠ '/')).reverse
    let before := path.take (path.length - after.length)
    match splitOnceAt ';' after with
    | some (a, b) => (before ++ a, b)
    | none => (path, [])
  else
    match splitOnceAt ';' path with
    | some (a, b) => (a, b)
    | none => (path, [])

/-- Model of `urllib.parse.urlparse(url, defScheme)`. -/
def pyParseUrl (defScheme : List Char) (url : List Char) : Except Unit ParseRes :=
  match pySplitUrl defScheme url with
  | .error e => .error e
  | .ok r =>
    if usesParams.contains r.scheme ∧ r.path.contains ';' then
      let pr := splitParamsPath r.path
      .ok ⟨r.scheme, r.netloc, pr.1, pr.2, r.query, r.fragment⟩
    else .ok ⟨r.scheme, r.netloc, r.path, [], r.query, r.fragment⟩

/-- Model of `urllib.parse.urlunsplit`. -/
def pyUrlunsplit (scheme netloc path query fragment : List Char) : List Char :=
  let url := path
  let url :=
    if netloc ≠ [] ∨ url.take 2 = ['/', '/'] then
      ['/', '/'] ++ netloc ++ (if url ≠ [] ∧ url.take 1 ≠ ['/'] then '/' :: url else url)
    else url
  let url := if scheme ≠ [] then scheme ++ ':' :: url else url
  let url := if query ≠ [] then url ++ '?' :: query else url
  if fragment ≠ [] then url ++ '#' :: fragment else url

/-- Model of `urllib.parse.urlunparse`. -/
def pyUrlunparse (scheme netloc path params query fragment : List Char) : List Char :=
  let p := if params ≠ [] then path ++ ';' :: params else path
  pyUrlunsplit scheme netloc p query fragment

/-- `segments[1:-1] = filter(None, segments[1:-1])` from CPython `urljoin`:
drop empty segments, keeping the first and last elements. -/
def filterMiddle (l : List (List Char)) : List (List Char) :=
  match l with
  | [] => []
  | [a] => [a]
  | a :: rest =>
    a :: (rest.dropLast.filter (fun s => s ≠ []) ++ rest.drop (rest.length - 1))

/-- The segment-resolution loop of CPython `urljoin` (`..` pops, `.` is
skipped; popping an empty accumulator is a no-op). -/
def resolveLoop : List (List Char) → List (List Char) → List (List Char)
  | acc, [] => acc
  | acc, seg :: rest =>
    if seg = ['.', '.'] then resolveLoop acc.dropLast rest
    else if seg = ['.'] then resolveLoop acc rest
    else resolveLoop (acc ++ [seg]) rest

/-- Model of `urllib.parse.urljoin(base, url)`. -/
def pyUrljoin (base url : List Char) : Except Unit (List Char) :=
  if base = [] then .ok url
  else if url = [] then .ok base
  else
    match pyParseUrl [] base with
    | .error e => .error e
    | .ok b =>
      match pyParseUrl b.scheme url with
      | .error e => .error e
      | .ok u =>
        if u.scheme ≠ b.scheme ∨ ¬ usesRelative.contains u.scheme then .ok url
        else if usesNetloc.contains u.scheme ∧ u.netloc ≠ [] then
          .ok (pyUrlunparse u.scheme u.netloc u.path u.params u.query u.fragment)
        else
          let netloc := if usesNetloc.contains u.scheme then b.netloc else u.netloc
          if u.path = [] ∧ u.params = [] then
            let q := if u.query = [] then b.query else u.query
            .ok (pyUrlunparse u.scheme netloc b.path b.params q u.fragment)
          else
            let baseParts0 := splitOnChar '/' b.path
            let baseParts :=
              if baseParts0.getLast? = some [] then baseParts0 else baseParts0.dropLast
            let segments :=
              if u.path.take 1 = ['/'] then splitOnChar '/' u.path
              else filterMiddle (baseParts ++ splitOnChar '/' u.path)
            let resolved0 := resolveLoop [] segments
            let resolved :=
              if segments.getLast? = some ['.'] ∨ segments.getLast? = some ['.', '.'] then
                resolved0 ++ [[]]
              else resolved0
            let joined := List.intercalate ['/'] resolved
            let path := if joined = [] then ['/'] else joined
            .ok (pyUrlunparse u.scheme netloc path u.params u.query u.fragment)

/-! ### The scraper's URL normalizer (`src/scraper.py` lines 20, 35-72) -/

/-- `SEARCH_URL` from the configuration block (line 20). -/
def SEARCH_URL : String := "https://www.apartments.com/apartments/seattle-wa/"

/-- `re.sub(r"/+", "/", path)`: collapse runs of slashes. -/
def collapseSlashes : List Char → List Char
  | [] => []
  | [c] => [c]
  | a :: b :: rest =>
    if a = '/' ∧ b = '/' then collapseSlashes (b :: rest)
    else a :: collapseSlashes (b :: rest)

/-- `path.rstrip("/")`. -/
def rstripSlash (l : List Char) : List Char :=
  (l.reverse.dropWhile (fun c => c = '/')).reverse

/-- Body of `normalize_url` (lines 43-70); `.error` stands for an escaping
exception, which the wrapper turns into the sentinel `""`. -/
def normCore (u0 : List Char) : Except Unit (List Char) :=
  if u0 = [] then .ok []
  else
    let u := stripList u0
    if List.isPrefixOf ("javascript:".toList) (lowerList u)
        || List.isPrefixOf ("mailto:".toList) (lowerList u) then .ok []
    else
      match pySplitUrl [] u with
      | .error e => .error e
      | .ok p0 =>
        let step : Except Unit SplitRes :=
          if p0.netloc = [] then
            match pyUrljoin SEARCH_URL.toList u with
            | .error e => .error e
            | .ok joined => pySplitUrl [] joined
          else .ok p0
        match step with
        | .error e => .error e
        | .ok p =>
          let scheme := if p.scheme = [] then "https".toList else p.scheme
          let netloc0 := lowerList p.netloc
          let netloc :=
            if List.isPrefixOf ("www.".toList) netloc0 then netloc0.drop 4 else netloc0
          let path0 := if p.path = [] then ['/'] else p.path
          let path := rstripSlash (collapseSlashes path0)
          .ok (pyUrlunsplit scheme netloc path [] [])

/-- `normalize_url` (`src/scraper.py` lines 35-72).  Returns the empty
string (the "unusable" sentinel) for rejected schemes and on any
exception. -/
def normalize_url (u : String) : String :=
  match normCore u.toList with
  | .ok l => l.asString
  | .error _ => ""

example : normalize_url "HTTP://WWW.Example.com//a//b/" = "http://example.com/a/b" := by decide
example : normalize_url "javascript:void(0)" = "" := by decide
example : normalize_url "mailto:a@b.com" = "" := by decide
example : normalize_url "tel:+12065551234" = "tel:+12065551234" := by decide
example : normalize_url "/units/123" = "https://apartments.com/units/123" := by decide
example : normalize_url "https://example.com/a /" = "https://example.com/a " := by decide
example : normalize_url "https://example.com/a " = "https://example.com/a" := by decide
example : normalize_url "" = "" := by decide

/-! ### The per-link extraction pipeline (`src/scraper.py` lines 301-399)

The browser is abstracted to a function `fetch : String → Option
RenderedPage`: `none` models `driver.get` raising (the only exception
source modelled inside the per-link `try`; the extraction sub-steps catch
their own exceptions locally and degrade to empty fields, which the
`RenderedPage` fields already reflect as raw selector results). -/

/-- What the rendered page offers to the extraction steps: the `h1` texts,
the address-selector texts, the meta-description content and
`driver.page_source`. -/
structure RenderedPage where
  h1Texts : List String
  addrTexts : List String
  metaDescription : Option String
  pageSource : String
deriving DecidableEq

/-- Title extraction (lines 325-330): first `h1`, stripped; absence keeps
the empty title. -/
def extractTitle (p : RenderedPage) : String :=
  match p.h1Texts with
  | [] => ""
  | t :: _ => if pyStrip t = "" then "" else pyStrip t

/-- Address extraction (lines 332-348): first address-selector text,
stripped; when empty, fall back to the meta-description content. -/
def extractAddress (p : RenderedPage) : String :=
  let a :=
    match p.addrTexts with
    | [] => ""
    | t :: _ => if pyStrip t = "" then "" else pyStrip t
  if a = "" then
    match p.metaDescription with
    | none => ""
    | some c => if c = "" then "" else pyStrip c
  else a

/-- The regex search `re.search(r'Built in\s*([0-9]{4})', text, re.IGNORECASE)`
(line 357): leftmost case-insensitive occurrence of the literal
`Built in`, then any run of whitespace, then four ASCII digits; the
matched year is `int(m.group(1))`. -/
def ciMatch : List Char → List Char → Option (List Char)
  | [], rest => some rest
  | _, [] => none
  | p :: ps, c :: cs => if p.toLower = c.toLower then ciMatch ps cs else none

/-- Four consecutive ASCII digits at the head of the list, as a number. -/
def fourDigits : List Char → Option Nat
  | a :: b :: c :: d :: _ =>
    if a.isDigit && b.isDigit && c.isDigit && d.isDigit then
      some (((a.toNat - '0'.toNat) * 1000) + ((b.toNat - '0'.toNat) * 100) +
            ((c.toNat - '0'.toNat) * 10) + (d.toNat - '0'.toNat))
    else none
  | _ => none

/-- Attempt the full pattern at the current position. -/
def matchBuiltAt (s : List Char) : Option Nat :=
  match ciMatch ("Built in".toList) s with
  | none => none
  | some rest => fourDigits (rest.dropWhile isPyWs)

/-- Leftmost match of the pattern in the text. -/
def searchBuilt : List Char → Option Nat
  | [] => none
  | c :: cs =>
    match matchBuiltAt (c :: cs) with
    | some y => some y
    | none => searchBuilt cs

/-- `re.search` for the "Built in ####" phrase over the page text. -/
def searchBuiltIn (s : String) : Option Nat := searchBuilt s.toList

/-- Terminal status of one link (the `status` strings of the source). -/
inductive Status where
  | error
  | no_built_in
  | too_old
  | city_mismatch
  | saved
deriving DecidableEq

/-- One row of `screened_log.csv` (the audit log), columns as written by
`_append_log_row` (line 295). -/
structure LogRow where
  worker : Nat
  index : Nat
  total : Nat
  title : String
  address : String
  url : String
  built_year : Option Nat
  status : Status
  note : String
deriving DecidableEq

/-- A record queued for `results.csv`: `(title, address, built_year, link)`
as appended at line 383. -/
structure SavedRow where
  title : String
  address : String
  built_year : Nat
  url : String
deriving DecidableEq

/-- One iteration of the link loop (lines 312-394): returns the optional
saved record and the audit-log row for this link. -/
def process_link (fetch : String → Option RenderedPage) (minYear : Nat) (city : String)
    (wid idx total : Nat) (link : String) : Option SavedRow × LogRow :=
  match fetch link with
  | none =>
    (none,
     { worker := wid, index := idx, total := total, title := "", address := "",
       url := link, built_year := none, status := .error, note := "exception" })
  | some page =>
    let title := extractTitle page
    let address := extractAddress page
    match searchBuiltIn page.pageSource with
    | none =>
      (none,
       { worker := wid, index := idx, total := total, title := title, address := address,
         url := link, built_year := none, status := .no_built_in,
         note := "'Built in' phrase not found" })
    | some y =>
      if y < minYear then
        (none,
         { worker := wid, index := idx, total := total, title := title, address := address,
           url := link, built_year := some y, status := .too_old,
           note := "Built in " ++ toString y ++ " < " ++ toString minYear })
      else if city ≠ "" ∧ (address = "" ∨ pyIn (pyLower city) (pyLower address) = false) then
        (none,
         { worker := wid, index := idx, total := total, title := title, address := address,
           url := link, built_year := some y, status := .city_mismatch,
           note := "Address does not contain city" })
      else
        (some ⟨title, address, y, link⟩,
         { worker := wid, index := idx, total := total, title := title, address := address,
           url := link, built_year := some y, status := .saved,
           note := "Built in " ++ toString y })

/-- The worker's loop over its batch (`for idx, link in enumerate(links,
start=1)`): collects the saved records and the audit-log rows, in visit
order. -/
def runLinks (fetch : String → Option RenderedPage) (minYear : Nat) (city : String)
    (wid total idx : Nat) : List String → List SavedRow × List LogRow
  | [] => ([], [])
  | link :: rest =>
    let r := process_link fetch minYear city wid idx total link
    let tail := runLinks fetch minYear city wid total (idx + 1) rest
    ((match r.1 with
      | some s => s :: tail.1
      | none => tail.1),
     r.2 :: tail.2)

/-! ### Per-batch result dedup (lines 401-411) -/

/-- The dedup loop: `seen` models the `seen_res` set; a record is dropped
when its normalized key is the sentinel or was already seen. -/
def dedupAux (seen : List String) : List SavedRow → List SavedRow
  | [] => []
  | r :: rs =>
    let key := normalize_url r.url
    if key = "" ∨ key ∈ seen then dedupAux seen rs
    else r :: dedupAux (key :: seen) rs

/-- `results = unique` after the dedup pass of `process_link_batch`. -/
def dedupResults (rs : List SavedRow) : List SavedRow := dedupAux [] rs

/-! ### The result-sink write block (lines 413-433)

The CSV file is a list of rows plus an existence flag.  The `with open`
block is modelled with an explicit handle whose `isOpen` flag becomes
false at the end of the block; crucially, the row-writing `for` loop at
source line 428 is indented at the same level as the `with` statement
(line 423), so it runs after the handle is closed. -/

/-- Header of `results.csv` (lines 426 and 448). -/
def resultHeader : List String := ["title", "address", "built_year", "url"]

/-- A CSV file on disk. -/
structure CsvFile where
  present : Bool
  rows : List (List String)
deriving DecidableEq

/-- An open (or closed) file handle wrapping the buffered rows. -/
structure Handle where
  buf : List (List String)
  isOpen : Bool
deriving DecidableEq

/-- `csv.writer(f).writerow(row)`: raises `ValueError` on a closed file. -/
def writerow (h : Handle) (r : List String) : Except String Handle :=
  if h.isOpen then .ok { buf := h.buf ++ [r], isOpen := h.isOpen }
  else .error "I/O operation on closed file."

/-- Write a list of rows in order, stopping at the first error. -/
def writeRows (h : Handle) : List (List String) → Except String Handle
  | [] => .ok h
  | r :: rs =>
    match writerow h r with
    | .error e => .error e
    | .ok h2 => writeRows h2 rs

/-- The `=HYPERLINK(...)` display-link formula built at line 430. -/
def hyperlinkFormula (url title : String) : String :=
  "=HYPERLINK(" ++ "\"" ++ url ++ "\"" ++ ", " ++ "\"" ++
    (if title = "" then "Listing" else title) ++ "\"" ++ ")"

/-- The CSV row written for one saved record (line 431). -/
def savedRowCsv (r : SavedRow) : List String :=
  [r.title, r.address, toString r.built_year, hyperlinkFormula r.url r.title]

/-- The write block (lines 414-433), translated statement by statement:
open in `w` mode when the file is absent (writing the header inside the
`with` block), close the handle when the `with` block ends at line 427,
then run the row loop of line 428 on the closed handle; the resulting
`ValueError` is swallowed by the `except` at line 432. -/
def resultsWriteBlock (results : List SavedRow) (file : CsvFile) : CsvFile :=
  if results = [] then file
  else
    let modeW := !file.present
    let h0 : Handle := { buf := if modeW then [] else file.rows, isOpen := true }
    let h1 : Handle := if modeW then { buf := h0.buf ++ [resultHeader], isOpen := true } else h0
    let closed : Handle := { buf := h1.buf, isOpen := false }
    let final : List (List String) :=
      match writeRows closed (results.map savedRowCsv) with
      | .ok h => h.buf
      | .error _ => closed.buf
    { present := true, rows := final }

/-- `process_link_batch` (lines 301-433) end to end for one worker: run
the batch, dedup the saved records, then run the result-sink write
block.  Returns the audit-log rows and the updated `results.csv`. -/
def worker_run (fetch : String → Option RenderedPage) (minYear : Nat) (city : String)
    (links : List String) (file : CsvFile) (wid : Nat) : List LogRow × CsvFile :=
  let out := runLinks fetch minYear city wid links.length 1 links
  (out.2, resultsWriteBlock (dedupResults out.1) file)

/-! ### Work partitioning and `main` (lines 436-468) -/

/-- `workers = min(WORKERS, n)` (line 452). -/
def workersOf (links : List String) (w : Nat) : Nat := min w links.length

/-- `batch_size = math.ceil(n / workers)` (line 453), over exact
arithmetic; the float division of the source agrees for every feasible
list length. -/
def batchSizeOf (links : List String) (w : Nat) : Nat :=
  (links.length + workersOf links w - 1) / workersOf links w

/-- The batch slices built at line 454:
`[links[i*batch_size:(i+1)*batch_size] for i in range(workers)]`. -/
def batchSlices (links : List String) (w : Nat) : List (List String) :=
  (List.range (workersOf links w)).map
    (fun i => (links.drop (i * batchSizeOf links w)).take (batchSizeOf links w))

/-- The batches actually submitted to workers: line 460 skips empty
batches (`if not batch: continue`). -/
def dispatchedBatches (links : List String) (w : Nat) : List (List String) :=
  (batchSlices links w).filter (fun b => !b.isEmpty)

/-- Observable outcome of `main` up to worker dispatch: whether
`results.csv` was created (and its initial content), and the dispatched
batches.  Source order matters: the zero-links early return at lines
441-443 precedes the header write at lines 446-448. -/
structure MainOutcome where
  sink : Option (List (List String))
  batches : List (List String)
deriving DecidableEq

/-- `main` (lines 436-462) given the links the traversal produced. -/
def mainRun (links : List String) (w : Nat) : MainOutcome :=
  if links = [] then { sink := none, batches := [] }
  else { sink := some [resultHeader], batches := dispatchedBatches links w }

/-! ### Pagination loop guard (`collect_listing_links`, lines 103-278)

Only the termination-relevant skeleton is modelled: the per-page work is
abstracted away and the "next" control becomes a function from the
current page URL to the optional URL it leads to.  The loop keeps the
`visited_page_urls` set (here: a list) and stops when the current URL was
already visited (lines 131-133), when no next control is found, or when
`max_pages` iterations have run (line 128). -/

def paginateAux (next : String → Option String) : Nat → List String → String → List String
  | 0, visited, _ => visited
  | n + 1, visited, cur =>
    if cur ∈ visited then visited
    else
      match next cur with
      | none => cur :: visited
      | some nxt => paginateAux next n (cur :: visited) nxt

/-- The pages processed by one traversal session, in visit order. -/
def paginate (next : String → Option String) (start : String) (maxPages : Nat) : List String :=
  (paginateAux next maxPages [] start).reverse

example :
    (worker_run (fun _ => some ⟨["T"], ["1 Pine St, Seattle"], none, "Built in 2024"⟩)
      2023 "Seattle" ["https://example.com/x"] ⟨true, [resultHeader]⟩ 1).2.rows
      = [resultHeader] := by decide
example :
    (worker_run (fun _ => some ⟨["T"], ["1 Pine St, Seattle"], none, "Built in 2024"⟩)
      2023 "Seattle" ["https://example.com/x"] ⟨true, [resultHeader]⟩ 1).1.map LogRow.status
      = [Status.saved] := by decide
example : (dispatchedBatches ["a","b","c","d","e","f","g","h","i","j"] 3).map List.length
    = [4, 4, 2] := by decide
example : paginate (fun _ => some "p1") "p1" 50 = ["p1"] := by decide
example : searchBuiltIn "blah bUiLt In   1999 x" = some 1999 := by decide
example : searchBuiltIn "Built in 123 and Built in 2020" = some 2020 := by decide
example : searchBuiltIn "no year" = none := by decide

/-! ## Claims -/

/-- C4 counterexample: on the spec's own example input the normalizer
keeps the original (lowercased) `http` scheme, so the claimed `https`
output is wrong. -/
theorem normalize_example_not_https :
    normalize_url "HTTP://WWW.Example.com//a//b/" ≠ "https://example.com/a/b" := by decide

/-- C4 (amended): `normalize` applied to `"HTTP://WWW.Example.com//a//b/"`
returns exactly `"http://example.com/a/b"`: host lowercased with the
leading `www.` stripped, repeated path slashes collapsed, the trailing
slash removed, and the original `http` scheme preserved (lowercased);
`https` is only the default used when the input has no scheme at all. -/
theorem normalize_example_scheme_preserved :
    normalize_url "HTTP://WWW.Example.com//a//b/" = "http://example.com/a/b" := by decide

/-- C5 counterexample: `tel:` is a non-navigable scheme, yet the
normalizer passes it through unchanged instead of returning the
sentinel — only the `javascript:` and `mailto:` prefixes are rejected. -/
theorem normalize_tel_not_sentinel :
    normalize_url "tel:+12065551234" ≠ "" ∧
      normalize_url "tel:+12065551234" = "tel:+12065551234" := by
  exact ⟨by decide, by decide⟩

/-- C5 (amended): for every input whose stripped, lowercased form starts
with `javascript:` or `mailto:`, `normalize_url` returns the unusable
sentinel (the empty string) and never raises; other non-navigable
schemes such as `tel:` are not mapped to the sentinel. -/
theorem normalize_rejected_scheme (u : String)
    (h : List.isPrefixOf ("javascript:".toList) (lowerList (stripList u.toList)) = true
       ∨ List.isPrefixOf ("mailto:".toList) (lowerList (stripList u.toList)) = true) :
    normalize_url u = "" := by
  have hb : (List.isPrefixOf ("javascript:".toList) (lowerList (stripList u.toList))
      || List.isPrefixOf ("mailto:".toList) (lowerList (stripList u.toList))) = true := by
    rcases h with h | h
    · rw [h]; rfl
    · rw [h, Bool.or_true]
  have hcore : normCore u.toList = .ok [] := by
    unfold normCore
    split
    · rfl
    · simp only [hb]
      rfl
  unfold normalize_url
  rw [hcore]
  rfl

theorem normalize_rejected_scheme_witness :
    (List.isPrefixOf ("javascript:".toList)
        (lowerList (stripList "JavaScript:void(0)".toList)) = true
      ∨ List.isPrefixOf ("mailto:".toList)
        (lowerList (stripList "JavaScript:void(0)".toList)) = true)
    ∧ normalize_url "JavaScript:void(0)" = "" :=
  ⟨Or.inl (by decide), normalize_rejected_scheme "JavaScript:void(0)" (Or.inl (by decide))⟩

/-- C10 counterexample: `normalize` is not idempotent.  For the input
`"https://example.com/a /"` the first application strips the trailing
slash but keeps the space that preceded it, and the second application
then strips that trailing space, yielding a different string. -/
theorem normalize_not_idempotent :
    normalize_url (normalize_url "https://example.com/a /")
      ≠ normalize_url "https://example.com/a /" := by decide

/-- C10 (amended): the unusable sentinel normalizes to itself, and
re-normalizing the normalized form of the spec's example URL leaves it
unchanged; but idempotence fails for inputs whose path keeps interior
whitespace ahead of a stripped trailing slash. -/
theorem normalize_idempotent_on_sentinel_and_example :
    normalize_url "" = ""
    ∧ normalize_url (normalize_url "HTTP://WWW.Example.com//a//b/")
        = normalize_url "HTTP://WWW.Example.com//a//b/" := by
  exact ⟨rfl, by decide⟩

/-- C3 counterexample: when traversal yields zero links, `main` returns
at line 443, before the header write at lines 446-448, so `results.csv`
is never created — contradicting the claim that the sink is still
created with the header row. -/
theorem main_zero_links_claim_false :
    ¬ ((mainRun [] 1).sink = some [resultHeader]) := by decide

/-- C3 (amended): if the traversal phase yields zero links, the run
terminates without creating any extraction workers and without creating
the result sink file (no header is written). -/
theorem main_zero_links_no_file (w : Nat) :
    mainRun [] w = { sink := none, batches := [] } := rfl

/-- C1 (code bug): a worker whose batch produced a saved record appends
nothing to `results.csv`.  The row-writing `for` loop at source line 428
is indented outside the `with open` block of line 423, so `writerow`
runs on a closed file; the `ValueError` is swallowed at line 432.  Here
a batch with one saved record leaves an existing sink unchanged, and on
a fresh sink writes the header but again no data row — contradicting the
function's own docstring ("Writes two outputs: results.csv (only saved
rows that passed filters)"). -/
theorem results_rows_lost_on_closed_file :
    ((worker_run (fun _ => some ⟨["The Marlowe"], ["123 Pine St, Seattle, WA 98101"], none,
        "Lovely home. Built in 2024."⟩) 2023 "Seattle"
        ["https://example.com/x"] ⟨true, [resultHeader]⟩ 1).1.map LogRow.status
      = [Status.saved])
    ∧ ((worker_run (fun _ => some ⟨["The Marlowe"], ["123 Pine St, Seattle, WA 98101"], none,
        "Lovely home. Built in 2024."⟩) 2023 "Seattle"
        ["https://example.com/x"] ⟨true, [resultHeader]⟩ 1).2
      = ⟨true, [resultHeader]⟩)
    ∧ (resultsWriteBlock [⟨"The Marlowe", "123 Pine St, Seattle, WA 98101", 2024,
        "https://example.com/x"⟩] ⟨false, []⟩
      = ⟨true, [resultHeader]⟩) := by
  exact ⟨by decide, by decide, by decide⟩

/-- C2: the terminal status of one link is decided in this priority
order: navigation failure gives `error`; otherwise a missing
"Built in <4-digit-year>" phrase gives `no_built_in` (and, as the second
conjunct states, this outcome is independent of the configured minimum
year and city filter — those filters are never evaluated); otherwise a
year below the minimum gives `too_old`; otherwise, with a city filter
configured, a missing address or an address not containing the city
(case-insensitive substring) gives `city_mismatch`; otherwise `saved`. -/
theorem pipeline_status_priority (fetch : String → Option RenderedPage) (minYear : Nat)
    (city : String) (wid idx total : Nat) (link : String) :
    ((process_link fetch minYear city wid idx total link).2.status =
      match fetch link with
      | none => Status.error
      | some page =>
        match searchBuiltIn page.pageSource with
        | none => Status.no_built_in
        | some y =>
          if y < minYear then Status.too_old
          else if city ≠ "" ∧ (extractAddress page = "" ∨
              pyIn (pyLower city) (pyLower (extractAddress page)) = false) then
            Status.city_mismatch
          else Status.saved)
    ∧ (∀ page, fetch link = some page → searchBuiltIn page.pageSource = none →
        ∀ my c, (process_link fetch my c wid idx total link).2.status
          = Status.no_built_in) := by
  constructor
  · cases h : fetch link with
    | none => simp [process_link, h]
    | some page =>
      cases hb : searchBuiltIn page.pageSource with
      | none => simp [process_link, h, hb]
      | some y =>
        by_cases hy : y < minYear
        · simp [process_link, h, hb, hy]
        · by_cases hc : city ≠ "" ∧ (extractAddress page = "" ∨
              pyIn (pyLower city) (pyLower (extractAddress page)) = false)
          · simp only [process_link, h, hb]
            rw [if_neg hy, if_pos hc, if_neg hy, if_pos hc]
          · simp only [process_link, h, hb]
            rw [if_neg hy, if_neg hc, if_neg hy, if_neg hc]
  · intro page hp hbn my c
    simp [process_link, hp, hbn]

/-- A page without the "Built in" phrase, used to instantiate C2. -/
def pageNB : RenderedPage :=
  { h1Texts := ["T"], addrTexts := [], metaDescription := none,
    pageSource := "No construction year on this page" }

theorem pipeline_status_priority_witness :
    ((fun _ : String => some pageNB) "u" = some pageNB)
    ∧ searchBuiltIn pageNB.pageSource = none
    ∧ (process_link (fun _ => some pageNB) 2023 "Seattle" 1 1 1 "u").2.status
        = Status.no_built_in :=
  ⟨rfl, by decide,
   (pipeline_status_priority (fun _ => some pageNB) 0 "" 1 1 1 "u").2 pageNB rfl
     (by decide) 2023 "Seattle"⟩

/-- Every branch of the link loop logs a row carrying this link's URL and
index. -/
theorem process_link_row_id (fetch : String → Option RenderedPage) (minYear : Nat)
    (city : String) (wid idx total : Nat) (link : String) :
    ((process_link fetch minYear city wid idx total link).2.url = link)
    ∧ ((process_link fetch minYear city wid idx total link).2.index = idx) := by
  cases h : fetch link with
  | none => simp [process_link, h]
  | some page =>
    cases hb : searchBuiltIn page.pageSource with
    | none => simp [process_link, h, hb]
    | some y =>
      simp only [process_link, h, hb]
      split_ifs <;> simp

/-- C7: for every link a worker processes, regardless of the terminal
status, exactly one audit-log record is written for that link before the
loop proceeds: the log rows of a batch are in bijection with the batch's
links, in order (their URL sequence is the batch and their indices are
`1, 2, ...` when started at `idx = 1`). -/
theorem audit_log_one_row_per_link (fetch : String → Option RenderedPage) (minYear : Nat)
    (city : String) (wid total : Nat) (links : List String) (idx : Nat) :
    ((runLinks fetch minYear city wid total idx links).2.map LogRow.url = links)
    ∧ ((runLinks fetch minYear city wid total idx links).2.map LogRow.index
        = List.range' idx links.length) := by
  induction links generalizing idx with
  | nil => simp [runLinks]
  | cons l rest ih =>
    have hid := process_link_row_id fetch minYear city wid idx total l
    have iht := ih (idx + 1)
    simp [runLinks, List.range'_succ, hid.1, hid.2, iht.1, iht.2]

/-- Fuel-indexed length bound for the pagination loop. -/
theorem paginateAux_length (next : String → Option String) :
    ∀ (n : Nat) (visited : List String) (cur : String),
      (paginateAux next n visited cur).length ≤ visited.length + n := by
  intro n
  induction n with
  | zero => intro visited cur; simp [paginateAux]
  | succ k ih =>
    intro visited cur
    simp only [paginateAux]
    split
    · omega
    · cases h : next cur with
      | none =>
        show (cur :: visited).length ≤ visited.length + (k + 1)
        simp only [List.length_cons]
        omega
      | some nxt =>
        show (paginateAux next k (cur :: visited) nxt).length ≤ visited.length + (k + 1)
        have h2 := ih (cur :: visited) nxt
        simp only [List.length_cons] at h2
        omega

/-- The pagination loop never records the same page URL twice. -/
theorem paginateAux_nodup (next : String → Option String) :
    ∀ (n : Nat) (visited : List String) (cur : String), visited.Nodup →
      (paginateAux next n visited cur).Nodup := by
  intro n
  induction n with
  | zero => intro v c h; exact h
  | succ k ih =>
    intro v c h
    simp only [paginateAux]
    split
    · exact h
    · rename_i hmem
      cases hn : next c with
      | none => exact List.nodup_cons.mpr ⟨hmem, h⟩
      | some nxt => exact ih (c :: v) nxt (List.nodup_cons.mpr ⟨hmem, h⟩)

/-- C9: the pagination traversal always terminates: it performs at most
`maxPages` iterations, never processes the same page URL twice, and the
loop guard stops it the moment the current page URL was already visited
in this session (so a "next" control that leads back to a visited page
cannot cause an infinite loop). -/
theorem pagination_terminates (next : String → Option String) (start : String)
    (maxPages : Nat) :
    (paginate next start maxPages).length ≤ maxPages
    ∧ (paginate next start maxPages).Nodup
    ∧ (∀ cur visited (n : Nat), cur ∈ visited →
        paginateAux next (n + 1) visited cur = visited) := by
  refine ⟨?_, ?_, ?_⟩
  · have := paginateAux_length next maxPages [] start
    simpa [paginate] using this
  · have := paginateAux_nodup next maxPages [] start List.nodup_nil
    simpa [paginate] using this
  · intro cur visited n h
    simp [paginateAux, h]

theorem pagination_terminates_witness :
    ("p1" ∈ ["p1"])
    ∧ paginateAux (fun _ => some "p1") (3 + 1) ["p1"] "p1" = ["p1"] :=
  ⟨by decide,
   (pagination_terminates (fun _ => some "p1") "p1" 50).2.2 "p1" ["p1"] 3 (by decide)⟩

/-- The dedup output is a subsequence of its input (kept records stay in
their original order). -/
theorem dedupAux_sublist (seen : List String) (rs : List SavedRow) :
    List.Sublist (dedupAux seen rs) rs := by
  induction rs generalizing seen with
  | nil => simp [dedupAux]
  | cons r rest ih =>
    simp only [dedupAux]
    split
    · exact (ih seen).cons r
    · exact (ih _).cons₂ r

/-- Records surviving the dedup pass never carry the sentinel key. -/
theorem dedupAux_no_sentinel (seen : List String) (rs : List SavedRow) :
    ∀ r ∈ dedupAux seen rs, normalize_url r.url ≠ "" := by
  induction rs generalizing seen with
  | nil => simp [dedupAux]
  | cons a rest ih =>
    simp only [dedupAux]
    split
    · exact ih seen
    · rename_i hcond
      push_neg at hcond
      intro r hr
      rcases List.mem_cons.mp hr with rfl | hr2
      · exact hcond.1
      · exact ih _ r hr2

/-- Dedup keeps, for every non-sentinel key not yet seen, exactly the
first input record whose URL normalizes to that key. -/
theorem dedupAux_filter_key (key : String) (hk : key ≠ "") :
    ∀ (rs : List SavedRow) (seen : List String),
      (dedupAux seen rs).filter (fun r => normalize_url r.url == key)
        = if key ∈ seen then []
          else (rs.filter (fun r => normalize_url r.url == key)).take 1 := by
  intro rs
  induction rs with
  | nil => intro seen; simp [dedupAux]
  | cons a rest ih =>
    intro seen
    by_cases hdrop : normalize_url a.url = "" ∨ normalize_url a.url ∈ seen
    · have hstep : dedupAux seen (a :: rest) = dedupAux seen rest := by
        simp only [dedupAux]
        rw [if_pos hdrop]
      rw [hstep, ih seen]
      by_cases hmem : key ∈ seen
      · simp [hmem]
      · have hne : ¬ ((normalize_url a.url == key) = true) := by
          simp only [beq_iff_eq]
          intro heq
          rcases hdrop with h0 | hm
          · exact hk (heq ▸ h0)
          · exact hmem (heq ▸ hm)
        rw [if_neg hmem, if_neg hmem, List.filter_cons, if_neg hne]
    · have hstep : dedupAux seen (a :: rest)
          = a :: dedupAux (normalize_url a.url :: seen) rest := by
        simp only [dedupAux]
        rw [if_neg hdrop]
      push_neg at hdrop
      rw [hstep]
      by_cases heq : normalize_url a.url = key
      · have hpa : (normalize_url a.url == key) = true := by simp [heq]
        have hmemk : key ∈ normalize_url a.url :: seen := by
          rw [heq]; exact List.mem_cons_self _ _
        have hnmem : key ∉ seen := by
          intro hm
          exact hdrop.2 (by rw [heq]; exact hm)
        rw [List.filter_cons, if_pos hpa, ih (normalize_url a.url :: seen), if_pos hmemk,
            if_neg hnmem, List.filter_cons, if_pos hpa]
        simp
      · have hpa : ¬ ((normalize_url a.url == key) = true) := by simp [heq]
        rw [List.filter_cons, if_neg hpa, ih (normalize_url a.url :: seen),
            List.filter_cons, if_neg hpa]
        by_cases hmem : key ∈ seen
        · rw [if_pos (List.mem_cons_of_mem _ hmem), if_pos hmem]
        · have hnm : key ∉ normalize_url a.url :: seen := by
            intro hc
            rcases List.mem_cons.mp hc with hc1 | hc2
            · exact heq hc1.symm
            · exact hmem hc2
          rw [if_neg hnm, if_neg hmem]

/-- C8: the per-batch dedup pass over a worker's saved records keeps for
every CanonicalURL key only the first record whose URL normalizes to
that key and removes all later records with the same key; the output is
a subsequence of the input (kept records keep their order) and contains
at most one record per key.  (The unusable sentinel `""` is not a
CanonicalURL — the normalizer's contract is "do not dedup, do not
enqueue", and the pass drops sentinel-keyed records entirely, which the
final conjunct covers.) -/
theorem dedup_keeps_first_per_key (records : List SavedRow) (key : String) (hk : key ≠ "") :
    List.Sublist (dedupResults records) records
    ∧ (dedupResults records).filter (fun r => normalize_url r.url == key)
        = (records.filter (fun r => normalize_url r.url == key)).take 1
    ∧ (∀ k : String,
        ((dedupResults records).filter (fun r => normalize_url r.url == k)).length ≤ 1) := by
  refine ⟨dedupAux_sublist [] records, ?_, ?_⟩
  · have h := dedupAux_filter_key key hk records []
    rw [if_neg (List.not_mem_nil key)] at h
    exact h
  · intro k
    by_cases hk2 : k = ""
    · subst hk2
      have hnil : (dedupResults records).filter
          (fun r => normalize_url r.url == "") = [] := by
        rw [List.filter_eq_nil_iff]
        intro r hr
        simp only [beq_iff_eq]
        exact dedupAux_no_sentinel [] records r hr
      simp [hnil]
    · have h := dedupAux_filter_key k hk2 records []
      simp only [dedupResults] at h ⊢
      rw [h, if_neg (List.not_mem_nil k)]
      exact List.length_take_le 1 (records.filter (fun r => normalize_url r.url == k))

/-- Two saved records whose raw URLs normalize to the same CanonicalURL. -/
def dupRecords : List SavedRow :=
  [⟨"A", "addr1", 2024, "https://example.com/x"⟩,
   ⟨"B", "addr2", 2025, "https://WWW.example.com/x/"⟩]

theorem dedup_keeps_first_per_key_witness :
    ("https://example.com/x" ≠ "")
    ∧ (dedupResults dupRecords).filter
        (fun r => normalize_url r.url == "https://example.com/x")
      = (dupRecords.filter (fun r => normalize_url r.url == "https://example.com/x")).take 1
    ∧ dedupResults dupRecords = [⟨"A", "addr1", 2024, "https://example.com/x"⟩] :=
  ⟨by decide,
   (dedup_keeps_first_per_key dupRecords "https://example.com/x" (by decide)).2.1,
   by decide⟩

/-- Recursive reformulation of the slice list of line 454, convenient for
induction: first `bs` elements, then the slices of the rest. -/
def chunksOf (bs : Nat) : Nat → List String → List (List String)
  | 0, _ => []
  | k + 1, l => l.take bs :: chunksOf bs k (l.drop bs)

/-- The comprehension over `range(workers)` equals the recursive form. -/
theorem range_map_slice (bs : Nat) :
    ∀ (k : Nat) (l : List String),
      (List.range k).map (fun i => (l.drop (i * bs)).take bs) = chunksOf bs k l := by
  intro k
  induction k with
  | zero => intro l; simp [chunksOf]
  | succ n ih =>
    intro l
    rw [List.range_succ_eq_map, List.map_cons, List.map_map]
    have hfun : ((fun i => (l.drop (i * bs)).take bs) ∘ Nat.succ)
        = fun i => ((l.drop bs).drop (i * bs)).take bs := by
      funext i
      simp [Function.comp, List.drop_drop, Nat.succ_mul, Nat.add_comm]
    rw [hfun, ih (l.drop bs)]
    simp [chunksOf]

/-- Slicing the empty list dispatches nothing. -/
theorem chunksOf_nil_filter (bs : Nat) :
    ∀ k : Nat, (chunksOf bs k []).filter (fun b => !b.isEmpty) = [] := by
  intro k
  induction k with
  | zero => simp [chunksOf]
  | succ n ih => simp [chunksOf, ih]

/-- When `k * bs` covers the list, the non-empty slices concatenate back
to the whole list. -/
theorem chunksOf_join (bs : Nat) :
    ∀ (k : Nat) (l : List String), l.length ≤ k * bs →
      ((chunksOf bs k l).filter (fun b => !b.isEmpty)).flatten = l := by
  intro k
  induction k with
  | zero =>
    intro l h
    have hnil : l = [] := List.eq_nil_of_length_eq_zero (by omega)
    subst hnil
    simp [chunksOf]
  | succ n ih =>
    intro l h
    cases l with
    | nil =>
      rw [chunksOf_nil_filter]
      rfl
    | cons a t =>
      have hbs : 0 < bs := by
        rcases Nat.eq_zero_or_pos bs with h0 | h0
        · rw [h0, Nat.mul_zero] at h; simp at h
        · exact h0
      have htake : (!((a :: t).take bs).isEmpty) = true := by
        cases bs with
        | zero => exact (Nat.lt_irrefl 0 hbs).elim
        | succ m => rfl
      have hlen : ((a :: t).drop bs).length ≤ n * bs := by
        have hld := List.length_drop bs (a :: t)
        rw [Nat.succ_mul] at h
        omega
      show (((a :: t).take bs :: chunksOf bs n ((a :: t).drop bs)).filter
          (fun b => !b.isEmpty)).flatten = a :: t
      rw [List.filter_cons, if_pos htake, List.flatten_cons, ih ((a :: t).drop bs) hlen]
      exact List.take_append_drop bs (a :: t)

/-- Every slice has at most `bs` elements. -/
theorem chunksOf_mem_le (bs : Nat) :
    ∀ (k : Nat) (l : List String), ∀ b ∈ chunksOf bs k l, b.length ≤ bs := by
  intro k
  induction k with
  | zero => intro l b hb; simp [chunksOf] at hb
  | succ n ih =>
    intro l b hb
    rcases List.mem_cons.mp hb with rfl | hb2
    · exact List.length_take_le bs l
    · exact ih (l.drop bs) b hb2

/-- Every dispatched slice except the last is full. -/
theorem chunksOf_dropLast_full (bs : Nat) :
    ∀ (k : Nat) (l : List String),
      ∀ b ∈ ((chunksOf bs k l).filter (fun x => !x.isEmpty)).dropLast, b.length = bs := by
  intro k
  induction k with
  | zero => intro l b hb; simp [chunksOf] at hb
  | succ n ih =>
    intro l b hb
    by_cases hl : (!(l.take bs).isEmpty) = true
    · rw [show chunksOf bs (n + 1) l = l.take bs :: chunksOf bs n (l.drop bs) from rfl,
          List.filter_cons, if_pos hl] at hb
      cases hD : (chunksOf bs n (l.drop bs)).filter (fun x => !x.isEmpty) with
      | nil => rw [hD] at hb; simp at hb
      | cons d ds =>
        rw [hD, List.dropLast_cons₂] at hb
        rcases List.mem_cons.mp hb with rfl | hb2
        · have hdropne : l.drop bs ≠ [] := by
            intro h0
            rw [h0, chunksOf_nil_filter] at hD
            exact List.cons_ne_nil d ds hD.symm
          have hpos : 0 < (l.drop bs).length := List.length_pos.mpr hdropne
          have hld := List.length_drop bs l
          rw [List.length_take]
          omega
        · rw [← hD] at hb2
          exact ih (l.drop bs) b hb2
    · rw [show chunksOf bs (n + 1) l = l.take bs :: chunksOf bs n (l.drop bs) from rfl,
          List.filter_cons, if_neg hl] at hb
      exact ih (l.drop bs) b hb

/-- C6: for a non-empty link list and at least one requested worker, the
partitioner builds `workers = min(W, N)` slices of size
`batch_size = ceil(N / workers)`: the list of slices has length
`workers`; the dispatched (non-empty) slices concatenate back to exactly
the input in traversal order (contiguous, non-overlapping, each link
covered exactly once); every dispatched slice is non-empty with at most
`batch_size` links; and every dispatched slice except possibly the last
has exactly `batch_size` links. -/
theorem partitioner_covers (links : List String) (w : Nat) (hl : links ≠ []) (hw : 1 ≤ w) :
    (batchSlices links w).length = workersOf links w
    ∧ (dispatchedBatches links w).flatten = links
    ∧ (∀ b ∈ dispatchedBatches links w, b ≠ [] ∧ b.length ≤ batchSizeOf links w)
    ∧ ∀ b ∈ (dispatchedBatches links w).dropLast, b.length = batchSizeOf links w := by
  have hn : 0 < links.length := List.length_pos.mpr hl
  have hwk : 0 < workersOf links w := by
    unfold workersOf; omega
  have hchunks : batchSlices links w
      = chunksOf (batchSizeOf links w) (workersOf links w) links :=
    range_map_slice (batchSizeOf links w) (workersOf links w) links
  have hcover : links.length ≤ workersOf links w * batchSizeOf links w := by
    unfold batchSizeOf
    have hdm := Nat.div_add_mod (links.length + workersOf links w - 1) (workersOf links w)
    have hmod := Nat.mod_lt (links.length + workersOf links w - 1) hwk
    omega
  refine ⟨?_, ?_, ?_, ?_⟩
  · unfold batchSlices
    simp
  · unfold dispatchedBatches
    rw [hchunks]
    exact chunksOf_join _ _ _ hcover
  · intro b hb
    unfold dispatchedBatches at hb
    rw [hchunks] at hb
    have hmem := List.mem_filter.mp hb
    refine ⟨?_, chunksOf_mem_le _ _ _ b hmem.1⟩
    have h2 := hmem.2
    simp only [Bool.not_eq_true'] at h2
    simpa using h2
  · intro b hb
    unfold dispatchedBatches at hb
    rw [hchunks] at hb
    exact chunksOf_dropLast_full _ _ _ b hb

/-- Ten links, as in the spec's partitioning example. -/
def tenLinks : List String :=
  ["u1", "u2", "u3", "u4", "u5", "u6", "u7", "u8", "u9", "u10"]

theorem partitioner_covers_witness :
    tenLinks ≠ [] ∧ 1 ≤ 3
    ∧ (dispatchedBatches tenLinks 3).map List.length = [4, 4, 2]
    ∧ (dispatchedBatches tenLinks 3).flatten = tenLinks :=
  ⟨by decide, by decide, by decide,
   (partitioner_covers tenLinks 3 (by decide) (by decide)).2.1⟩
